import Mathlib

/-!
Verification of the schedule parser of `scrape_schedule.py`.

The parsing core (lines 41-70 of the source) turns a list of trimmed text
lines into a mapping from room code to a record of advisors text, graders
text and an ordered schedule of (time label, presenter) pairs.  Strings are
embedded as Lean `String`s and all string primitives used by the source
(`in`, `split`, `strip`) are reimplemented structurally on `List Char` so
that everything is kernel-computable.  Python's insertion-ordered `dict` is
embedded as an association list: assigning to an existing key replaces the
value in place, assigning to a fresh key appends at the end.
-/

namespace SymposiumSchedule

/-- Boolean test that the first character list is a prefix of the second. -/
def isPrefixL : List Char → List Char → Bool
  | [], _ => true
  | _ :: _, [] => false
  | a :: as, b :: bs => a == b && isPrefixL as bs

/-- Python substring containment `pat in s`, scanning left to right. -/
def containsL (pat : List Char) : List Char → Bool
  | [] => isPrefixL pat []
  | c :: rest => isPrefixL pat (c :: rest) || containsL pat rest

/-- Python `s.split(pat)[0]`: the text before the first occurrence of `pat`,
or the whole string when `pat` does not occur.  (`pat` is a fixed non-empty
literal at every use site.) -/
def takeBeforeL (pat : List Char) : List Char → List Char
  | [] => []
  | c :: rest => if isPrefixL pat (c :: rest) then [] else c :: takeBeforeL pat rest

/-- The suffix of the string after the first occurrence of `pat` (empty when
`pat` does not occur; every use site is guarded by a containment check). -/
def dropThroughL (pat : List Char) : List Char → List Char
  | [] => []
  | c :: rest =>
    if isPrefixL pat (c :: rest) then List.drop pat.length (c :: rest)
    else dropThroughL pat rest

/-- Python whitespace strip of both ends, as used by `str.strip()`. -/
def trimL (s : List Char) : List Char :=
  ((s.dropWhile Char.isWhitespace).reverse.dropWhile Char.isWhitespace).reverse

/-- String wrapper for `containsL`: Python `pat in s`. -/
def containsSub (s pat : String) : Bool := containsL pat.data s.data

/-- String wrapper for `takeBeforeL`: Python `s.split(pat)[0]`. -/
def splitHead (s pat : String) : String := String.mk (takeBeforeL pat.data s.data)

/-- String wrapper for `dropThroughL`: the text after the first occurrence. -/
def dropThroughSub (s pat : String) : String := String.mk (dropThroughL pat.data s.data)

/-- Python `s.split(pat)[1]` when `pat` occurs in `s`: the text strictly
between the first occurrence of `pat` and the next one (or the end of the
string when there is no second occurrence). -/
def splitSecond (s pat : String) : String :=
  String.mk (takeBeforeL pat.data (dropThroughL pat.data s.data))

/-- String wrapper for `trimL`: Python `s.strip()`. -/
def trimStr (s : String) : String := String.mk (trimL s.data)

/-- Record held for each room: `rooms[code] = ...` at source line 49. -/
structure RoomRecord where
  advisors : String
  graders : String
  schedule : List (String × String)
deriving DecidableEq, Repr

/-- Insertion-ordered dictionary from room code to record. -/
abbrev Rooms := List (String × RoomRecord)

/-- The fixed list of recognized room-header lines (source line 46). -/
def roomHeaders : List String :=
  ["001 - Sherrerd Hall", "003 - Sherrerd Hall", "101 - Sherrerd Hall",
   "107 - Sherrerd Hall", "110 - Sherrerd Hall", "123 - Sherrerd Hall",
   "125 - Sherrerd Hall"]

/-- The seven room codes extracted from the recognized headers. -/
def roomCodes : List String := ["001", "003", "101", "107", "110", "123", "125"]

/-- The noise literal skipped by the presenter lookahead (source line 64). -/
def noiseLine : String := "Link downloads document"

/-- The advisors-section marker substring (source lines 50-55). -/
def advMark : String := "ORFE Advisors:"

/-- The graders-section marker substring (source lines 50-57). -/
def grdMark : String := "PhD Candidate Graders:"

/-- Python dict assignment `rooms[k] = v`: replace in place when the key is
present, append at the end otherwise (insertion order preserved). -/
def dictInsert (rooms : Rooms) (k : String) (v : RoomRecord) : Rooms :=
  if rooms.any (fun p => p.1 == k) then
    rooms.map (fun p => if p.1 == k then (p.1, v) else p)
  else rooms ++ [(k, v)]

/-- Python in-place field update `rooms[k][field] = ...`; the key is always
present at every use site (it is inserted when `current_room` is set). -/
def dictUpdate (rooms : Rooms) (k : String) (f : RoomRecord → RoomRecord) : Rooms :=
  rooms.map (fun p => if p.1 == k then (p.1, f p.2) else p)

/-- Python dict lookup `rooms[k]` as an option. -/
def lookupRoom (rooms : Rooms) (k : String) : Option RoomRecord :=
  match rooms.find? (fun p => p.1 == k) with
  | some p => some p.2
  | none => none

/-- The keys of the mapping, in insertion order. -/
def roomKeys (rooms : Rooms) : List String := rooms.map (fun p => p.1)

/-- Inner lookahead loop of the time branch (source lines 61-67): scan
forward for the first line that is truthy (non-empty) and not the noise
literal, and return it together with the lines remaining after it; return
`none` and no remaining lines when the input ends first. -/
def findPresenterLine : List String → Option String × List String
  | [] => (none, [])
  | l :: rest =>
    if l ≠ "" ∧ l ≠ noiseLine then (some l, rest) else findPresenterLine rest

/-- Presenter extracted from the found line: `next_line.split(' Link')[0]`
(source line 65), or the initial empty string when no line was found. -/
def presenterOf : Option String → String
  | none => ""
  | some l => splitHead l " Link"

/-- Appending one (time, presenter) pair to a room's schedule (source line 68). -/
def appendSlot (rooms : Rooms) (cr time presenter : String) : Rooms :=
  dictUpdate rooms cr (fun r => { r with schedule := r.schedule ++ [(time, presenter)] })

/-- The scanning loop of `scrape_schedule` (source lines 44-69), with the
cursor replaced by the list of lines not yet visited.  Branches appear in the
source's priority order: room header, combined advisors+graders line,
advisors-only line, graders-only line, time-range line (with inline
presenter lookahead), and a final silent skip. -/
def parseLoop (lines : List String) (current : Option String) (rooms : Rooms) : Rooms :=
  match lines with
  | [] => rooms
  | line :: rest =>
    if line ∈ roomHeaders then
      parseLoop rest (some (splitHead line " - "))
        (dictInsert rooms (splitHead line " - ") ⟨"", "", []⟩)
    else
      match current with
      | none => parseLoop rest none rooms
      | some cr =>
        if containsSub line advMark && containsSub line grdMark then
          parseLoop rest (some cr) (dictUpdate rooms cr (fun r =>
            { r with advisors := splitHead line grdMark,
                     graders := grdMark ++ splitSecond line grdMark }))
        else if containsSub line advMark then
          parseLoop rest (some cr) (dictUpdate rooms cr (fun r => { r with advisors := line }))
        else if containsSub line grdMark then
          parseLoop rest (some cr) (dictUpdate rooms cr (fun r => { r with graders := line }))
        else if containsSub line "am – " || containsSub line "pm – " then
          parseLoop (findPresenterLine rest).2 (some cr)
            (appendSlot rooms cr line (presenterOf (findPresenterLine rest).1))
        else
          parseLoop rest (some cr) rooms
termination_by lines.length
decreasing_by
  · simp
  · simp
  · simp
  · simp
  · simp
  · have hle : ∀ l : List String, (findPresenterLine l).2.length ≤ l.length := by
      intro l
      induction l with
      | nil => simp [findPresenterLine]
      | cons a r ih =>
        by_cases hc : a ≠ "" ∧ a ≠ noiseLine
        · simp [findPresenterLine, hc]
        · simp only [findPresenterLine, if_neg hc]
          exact Nat.le_trans ih (Nat.le_succ _)
    exact Nat.lt_succ_of_le (hle rest)
  · simp

/-- The parsing core of `scrape_schedule`: scan all lines starting with no
current room and an empty mapping (source lines 41-70). -/
def parse (lines : List String) : Rooms := parseLoop lines none []

/-- Fuel-indexed variant of `parseLoop`, structurally recursive on the fuel.
One unit of fuel is spent per iteration of the outer loop; since every outer
iteration consumes at least one line, fuel equal to the number of lines
always suffices (`parseLoopFuel_adequate`). -/
def parseLoopFuel : Nat → List String → Option String → Rooms → Option Rooms
  | _, [], _, rooms => some rooms
  | 0, _ :: _, _, _ => none
  | fuel + 1, line :: rest, current, rooms =>
    if line ∈ roomHeaders then
      parseLoopFuel fuel rest (some (splitHead line " - "))
        (dictInsert rooms (splitHead line " - ") ⟨"", "", []⟩)
    else
      match current with
      | none => parseLoopFuel fuel rest none rooms
      | some cr =>
        if containsSub line advMark && containsSub line grdMark then
          parseLoopFuel fuel rest (some cr) (dictUpdate rooms cr (fun r =>
            { r with advisors := splitHead line grdMark,
                     graders := grdMark ++ splitSecond line grdMark }))
        else if containsSub line advMark then
          parseLoopFuel fuel rest (some cr)
            (dictUpdate rooms cr (fun r => { r with advisors := line }))
        else if containsSub line grdMark then
          parseLoopFuel fuel rest (some cr)
            (dictUpdate rooms cr (fun r => { r with graders := line }))
        else if containsSub line "am – " || containsSub line "pm – " then
          parseLoopFuel fuel (findPresenterLine rest).2 (some cr)
            (appendSlot rooms cr line (presenterOf (findPresenterLine rest).1))
        else
          parseLoopFuel fuel rest (some cr) rooms

/-- Loop body of `_shorten_time` (source lines 210-213): try each separator
in order and, on the first one contained in the string, return the text
before it, stripped; with no separator left, return the string stripped. -/
def shortenTimeAux (t : String) : List String → String
  | [] => trimStr t
  | sep :: seps =>
    if containsSub t sep then trimStr (splitHead t sep) else shortenTimeAux t seps

/-- Embedding of `_shorten_time` (source lines 208-213): separators tried in
the fixed order space-en-dash-space, space-hyphen-space, en-dash, hyphen. -/
def shorten_time (t : String) : String := shortenTimeAux t [" – ", " - ", "–", "-"]

/-- Modelled from the claim wording of C1 for the presenter lookahead:
consume lines until one that is not exactly the noise literal, with no
non-emptiness test.  Used only to compare the claim against the source's
`findPresenterLine`. -/
def findPresenterLineClaim : List String → Option String × List String
  | [] => (none, [])
  | l :: rest => if l ≠ noiseLine then (some l, rest) else findPresenterLineClaim rest

/-- Escape of one character inside a JSON string literal, as far as the
characters occurring in schedule data require (`json.dumps`). -/
def escJsonChar (c : Char) : List Char :=
  if c = '"' ∨ c = '\\' then ['\\', c] else [c]

/-- JSON string literal for `s`, modelling `json.dumps` on the data produced
by the parser. -/
def jsonStr (s : String) : String :=
  "\"" ++ String.mk (s.data.map escJsonChar).flatten ++ "\""

/-- JSON rendering of one (time, presenter) pair, a two-element array. -/
def slotJson (e : String × String) : String :=
  "[" ++ jsonStr e.1 ++ ", " ++ jsonStr e.2 ++ "]"

/-- JSON rendering of one room record, modelling `json.dumps` with default
separators on the per-room dictionary. -/
def recordJson (r : RoomRecord) : String :=
  "\x7b\"advisors\": " ++ jsonStr r.advisors ++ ", \"graders\": " ++ jsonStr r.graders ++
    ", \"schedule\": [" ++ String.intercalate ", " (r.schedule.map slotJson) ++ "]\x7d"

/-- JSON rendering of the whole mapping in insertion order, modelling
`json.dumps(rooms)` (source line 400). -/
def roomsJson (rooms : Rooms) : String :=
  "\x7b" ++
    String.intercalate ", " (rooms.map (fun p => jsonStr p.1 ++ ": " ++ recordJson p.2)) ++
    "\x7d"

/-- Lexicographic comparison on character lists, for key sorting. -/
def lexLe : List Char → List Char → Bool
  | [], _ => true
  | _ :: _, [] => false
  | a :: as, b :: bs => if a == b then lexLe as bs else decide (a < b)

/-- Insertion step of an insertion sort on room keys. -/
def insertSorted (p : String × RoomRecord) : Rooms → Rooms
  | [] => [p]
  | q :: qs => if lexLe p.1.data q.1.data then p :: q :: qs else q :: insertSorted p qs

/-- Sorting the mapping by key, modelling `sort_keys=True`. -/
def sortByKey (rooms : Rooms) : Rooms := rooms.foldr insertSorted []

/-- Key-sorted JSON rendering of the mapping, modelling
`json.dumps(rooms, sort_keys=True)` (source line 397). -/
def roomsJsonSorted (rooms : Rooms) : String := roomsJson (sortByKey rooms)

theorem findPresenterLine_length_le :
    ∀ l : List String, (findPresenterLine l).2.length ≤ l.length := by
  intro l
  induction l with
  | nil => simp [findPresenterLine]
  | cons a rest ih =>
    by_cases h : a ≠ "" ∧ a ≠ noiseLine
    · simp [findPresenterLine, h]
    · simp only [findPresenterLine, if_neg h]
      exact Nat.le_trans ih (Nat.le_succ _)

theorem parseLoopFuel_adequate :
    ∀ (fuel : Nat) (lines : List String) (current : Option String) (rooms : Rooms),
      lines.length ≤ fuel →
      parseLoopFuel fuel lines current rooms = some (parseLoop lines current rooms) := by
  intro fuel
  induction fuel with
  | zero =>
    intro lines current rooms h
    have hnil : lines = [] := List.eq_nil_of_length_eq_zero (Nat.le_zero.mp h)
    subst hnil
    simp [parseLoopFuel, parseLoop]
  | succ n ih =>
    intro lines current rooms h
    match lines with
    | [] => simp [parseLoopFuel, parseLoop]
    | line :: rest =>
      have hrest : rest.length ≤ n := by
        simpa using Nat.lt_succ_iff.mp (Nat.lt_of_lt_of_le (by simp) h)
      have hfind : (findPresenterLine rest).2.length ≤ n :=
        Nat.le_trans (findPresenterLine_length_le rest) hrest
      rw [parseLoop.eq_def]
      by_cases hhdr : line ∈ roomHeaders
      · simp only [parseLoopFuel, if_pos hhdr]
        exact ih _ _ _ hrest
      · match current with
        | none =>
          simp only [parseLoopFuel, if_neg hhdr]
          exact ih _ _ _ hrest
        | some cr =>
          simp only [parseLoopFuel, if_neg hhdr]
          by_cases h1 : (containsSub line advMark && containsSub line grdMark) = true
          · simp only [if_pos h1]; exact ih _ _ _ hrest
          · simp only [if_neg h1]
            by_cases h2 : containsSub line advMark = true
            · simp only [if_pos h2]; exact ih _ _ _ hrest
            · simp only [if_neg h2]
              by_cases h3 : containsSub line grdMark = true
              · simp only [if_pos h3]; exact ih _ _ _ hrest
              · simp only [if_neg h3]
                by_cases h4 : (containsSub line "am – " || containsSub line "pm – ") = true
                · simp only [if_pos h4]; exact ih _ _ _ hfind
                · simp only [if_neg h4]; exact ih _ _ _ hrest

/-- Evaluation helper: a concrete run of the structurally recursive fuelled
loop determines the value of `parse`. -/
theorem parse_eval (lines : List String) (r : Rooms)
    (h : parseLoopFuel lines.length lines none [] = some r) : parse lines = r := by
  have := parseLoopFuel_adequate lines.length lines none [] (Nat.le_refl _)
  rw [parse]
  exact Option.some.inj (this ▸ h)

theorem roomHeaders_no_time :
    ∀ l ∈ roomHeaders, containsSub l "am – " = false ∧ containsSub l "pm – " = false := by
  decide

theorem roomHeaders_no_marks :
    ∀ l ∈ roomHeaders, containsSub l advMark = false ∧ containsSub l grdMark = false := by
  decide

theorem roomHeaders_code_mem :
    ∀ l ∈ roomHeaders, splitHead l " - " ∈ roomCodes := by
  decide

theorem roomHeaders_presenter_id :
    ∀ l ∈ roomHeaders, splitHead l " Link" = l ∧ l ≠ "" ∧ l ≠ noiseLine := by
  decide

theorem parseLoop_cons_header (line : String) (rest : List String)
    (current : Option String) (rooms : Rooms) (h : line ∈ roomHeaders) :
    parseLoop (line :: rest) current rooms =
      parseLoop rest (some (splitHead line " - "))
        (dictInsert rooms (splitHead line " - ") ⟨"", "", []⟩) := by
  rw [parseLoop.eq_def]
  simp [h]

theorem parseLoop_cons_none (line : String) (rest : List String) (rooms : Rooms)
    (h : line ∉ roomHeaders) :
    parseLoop (line :: rest) none rooms = parseLoop rest none rooms := by
  rw [parseLoop.eq_def]
  simp [h]

theorem parseLoop_cons_both (line cr : String) (rest : List String) (rooms : Rooms)
    (hhdr : line ∉ roomHeaders)
    (hadv : containsSub line advMark = true)
    (hgrd : containsSub line grdMark = true) :
    parseLoop (line :: rest) (some cr) rooms =
      parseLoop rest (some cr) (dictUpdate rooms cr (fun r =>
        { r with advisors := splitHead line grdMark,
                 graders := grdMark ++ splitSecond line grdMark })) := by
  rw [parseLoop.eq_def]
  simp [hhdr, hadv, hgrd]

theorem parseLoop_cons_time (line cr : String) (rest : List String) (rooms : Rooms)
    (hhdr : line ∉ roomHeaders)
    (hadv : containsSub line advMark = false)
    (hgrd : containsSub line grdMark = false)
    (htime : (containsSub line "am – " || containsSub line "pm – ") = true) :
    parseLoop (line :: rest) (some cr) rooms =
      parseLoop (findPresenterLine rest).2 (some cr)
        (appendSlot rooms cr line (presenterOf (findPresenterLine rest).1)) := by
  rw [parseLoop.eq_def]
  simp [hhdr, hadv, hgrd, htime]

theorem findPresenterLine_append (pre : List String) (found : String) (rest' : List String)
    (hpre : ∀ l ∈ pre, l = "" ∨ l = noiseLine)
    (h1 : found ≠ "") (h2 : found ≠ noiseLine) :
    findPresenterLine (pre ++ found :: rest') = (some found, rest') := by
  induction pre with
  | nil => simp [findPresenterLine, h1, h2]
  | cons a pres ih =>
    have ha : a = "" ∨ a = noiseLine := hpre a (by simp)
    have hcond : ¬(a ≠ "" ∧ a ≠ noiseLine) := by
      rcases ha with ha | ha <;> simp [ha]
    simp only [List.cons_append, findPresenterLine, if_neg hcond]
    exact ih (fun l hl => hpre l (by simp [hl]))

theorem findPresenterLine_all_skip (pre : List String)
    (hpre : ∀ l ∈ pre, l = "" ∨ l = noiseLine) :
    findPresenterLine pre = (none, []) := by
  induction pre with
  | nil => rfl
  | cons a pres ih =>
    have ha : a = "" ∨ a = noiseLine := hpre a (by simp)
    have hcond : ¬(a ≠ "" ∧ a ≠ noiseLine) := by
      rcases ha with ha | ha <;> simp [ha]
    simp only [findPresenterLine, if_neg hcond]
    exact ih (fun l hl => hpre l (by simp [hl]))

theorem keys_map_if (k : String) (g : String × RoomRecord → RoomRecord) :
    ∀ rooms : Rooms,
      roomKeys (rooms.map (fun p => if p.1 == k then (p.1, g p) else p)) = roomKeys rooms := by
  intro rooms
  induction rooms with
  | nil => rfl
  | cons p ps ih =>
    by_cases hp : p.1 == k
    · simp only [roomKeys, List.map_cons, if_pos hp] at ih ⊢
      rw [ih]
    · simp only [roomKeys, List.map_cons, if_neg hp] at ih ⊢
      rw [ih]

theorem roomKeys_dictUpdate (rooms : Rooms) (k : String) (f : RoomRecord → RoomRecord) :
    roomKeys (dictUpdate rooms k f) = roomKeys rooms :=
  keys_map_if k (fun p => f p.2) rooms

theorem roomKeys_appendSlot (rooms : Rooms) (cr time presenter : String) :
    roomKeys (appendSlot rooms cr time presenter) = roomKeys rooms :=
  roomKeys_dictUpdate rooms cr _

theorem mem_roomKeys_dictInsert (rooms : Rooms) (k k' : String) (v : RoomRecord)
    (h : k' ∈ roomKeys (dictInsert rooms k v)) : k' = k ∨ k' ∈ roomKeys rooms := by
  unfold dictInsert at h
  by_cases hc : rooms.any (fun p => p.1 == k)
  · rw [if_pos hc] at h
    right
    rwa [keys_map_if k (fun _ => v) rooms] at h
  · rw [if_neg hc] at h
    unfold roomKeys at h
    rw [List.map_append] at h
    rcases List.mem_append.mp h with h | h
    · right; exact h
    · left; simpa using h

theorem find_replace_self (k : String) (v : RoomRecord) :
    ∀ rooms : Rooms, rooms.any (fun p => p.1 == k) = true →
      lookupRoom (rooms.map (fun p => if p.1 == k then (p.1, v) else p)) k = some v := by
  intro rooms
  induction rooms with
  | nil => intro h; simp at h
  | cons p ps ih =>
    intro h
    by_cases hp : (p.1 == k) = true
    · simp only [List.map_cons, if_pos hp]
      simp [lookupRoom, List.find?_cons, hp]
    · have h2 : ps.any (fun q => q.1 == k) = true := by
        simpa [List.any_cons, hp] using h
      simp only [List.map_cons, if_neg hp]
      have := ih h2
      simp only [lookupRoom, List.find?_cons, hp] at this ⊢
      exact this

theorem find_append_new (k : String) (v : RoomRecord) :
    ∀ rooms : Rooms, rooms.any (fun p => p.1 == k) = false →
      lookupRoom (rooms ++ [(k, v)]) k = some v := by
  intro rooms
  induction rooms with
  | nil =>
    intro _
    simp [lookupRoom, List.find?_cons]
  | cons p ps ih =>
    intro h
    have hp : (p.1 == k) = false := by
      by_contra hcon
      simp only [List.any_cons] at h
      rw [Bool.or_eq_false_iff] at h
      exact (Bool.eq_false_iff.mp h.1) (Bool.not_eq_false _ ▸ Bool.of_not_eq_false hcon)
    have h2 : ps.any (fun q => q.1 == k) = false := by
      simp only [List.any_cons] at h
      rw [Bool.or_eq_false_iff] at h
      exact h.2
    have := ih h2
    simp only [lookupRoom, List.cons_append, List.find?_cons, hp] at this ⊢
    exact this

theorem lookupRoom_dictInsert_self (rooms : Rooms) (k : String) (v : RoomRecord) :
    lookupRoom (dictInsert rooms k v) k = some v := by
  unfold dictInsert
  by_cases hc : rooms.any (fun p => p.1 == k) = true
  · rw [if_pos hc]
    exact find_replace_self k v rooms hc
  · rw [if_neg hc]
    exact find_append_new k v rooms (Bool.eq_false_iff.mpr hc)

theorem lookupRoom_dictUpdate_self (rooms : Rooms) (k : String) (f : RoomRecord → RoomRecord) :
    lookupRoom (dictUpdate rooms k f) k = (lookupRoom rooms k).map f := by
  unfold dictUpdate
  induction rooms with
  | nil => simp [lookupRoom]
  | cons p ps ih =>
    by_cases hp : (p.1 == k) = true
    · simp only [List.map_cons, if_pos hp]
      simp [lookupRoom, List.find?_cons, hp]
    · simp only [List.map_cons, if_neg hp]
      simp only [lookupRoom, List.find?_cons, hp] at ih ⊢
      exact ih

theorem parseLoop_nil (current : Option String) (rooms : Rooms) :
    parseLoop [] current rooms = rooms := by
  rw [parseLoop.eq_def]

theorem parseLoop_no_header :
    ∀ lines : List String, (∀ l ∈ lines, l ∉ roomHeaders) →
      ∀ rooms : Rooms, parseLoop lines none rooms = rooms := by
  intro lines
  induction lines with
  | nil => intro _ rooms; exact parseLoop_nil none rooms
  | cons line rest ih =>
    intro h rooms
    rw [parseLoop_cons_none line rest rooms (h line (by simp))]
    exact ih (fun l hl => h l (by simp [hl])) rooms

theorem parseLoopFuel_keys :
    ∀ (fuel : Nat) (lines : List String) (current : Option String) (rooms r : Rooms),
      parseLoopFuel fuel lines current rooms = some r →
      ∀ k, k ∈ roomKeys r → k ∈ roomCodes ∨ k ∈ roomKeys rooms := by
  intro fuel
  induction fuel with
  | zero =>
    intro lines current rooms r h k hk
    match lines with
    | [] =>
      simp only [parseLoopFuel] at h
      cases h
      right; exact hk
    | _ :: _ => simp [parseLoopFuel] at h
  | succ n ih =>
    intro lines current rooms r h k hk
    match lines with
    | [] =>
      simp only [parseLoopFuel] at h
      cases h
      right; exact hk
    | line :: rest =>
      by_cases hhdr : line ∈ roomHeaders
      · simp only [parseLoopFuel, if_pos hhdr] at h
        rcases ih _ _ _ _ h k hk with hc | hm
        · left; exact hc
        · rcases mem_roomKeys_dictInsert _ _ _ _ hm with he | hm2
          · left; rw [he]; exact roomHeaders_code_mem line hhdr
          · right; exact hm2
      · match current with
        | none =>
          simp only [parseLoopFuel, if_neg hhdr] at h
          exact ih _ _ _ _ h k hk
        | some cr =>
          simp only [parseLoopFuel, if_neg hhdr] at h
          by_cases h1 : (containsSub line advMark && containsSub line grdMark) = true
          · rw [if_pos h1] at h
            rcases ih _ _ _ _ h k hk with hc | hm
            · left; exact hc
            · right; rwa [roomKeys_dictUpdate] at hm
          · rw [if_neg h1] at h
            by_cases h2 : containsSub line advMark = true
            · rw [if_pos h2] at h
              rcases ih _ _ _ _ h k hk with hc | hm
              · left; exact hc
              · right; rwa [roomKeys_dictUpdate] at hm
            · rw [if_neg h2] at h
              by_cases h3 : containsSub line grdMark = true
              · rw [if_pos h3] at h
                rcases ih _ _ _ _ h k hk with hc | hm
                · left; exact hc
                · right; rwa [roomKeys_dictUpdate] at hm
              · rw [if_neg h3] at h
                by_cases h4 : (containsSub line "am – " || containsSub line "pm – ") = true
                · rw [if_pos h4] at h
                  rcases ih _ _ _ _ h k hk with hc | hm
                  · left; exact hc
                  · right; rwa [roomKeys_appendSlot] at hm
                · rw [if_neg h4] at h
                  exact ih _ _ _ _ h k hk

/-- C1, counterexample to the claim as stated: on the input
`["101 - Sherrerd Hall", "9:00 am – 9:15 am", "", "Bob"]` the claim's
lookahead (consume lines until one not exactly the noise literal) stops at
the empty line and would yield the empty presenter, but the code skips the
empty line (it is falsy) and records presenter `"Bob"`. -/
theorem C1_counterexample :
    findPresenterLineClaim ["", "Bob"] = (some "", ["Bob"]) ∧
    parse ["101 - Sherrerd Hall", "9:00 am – 9:15 am", "", "Bob"] =
      [("101", ⟨"", "", [("9:00 am – 9:15 am", "Bob")]⟩)] ∧
    presenterOf (some "") ≠ "Bob" :=
  ⟨by decide, parse_eval _ _ (by decide), by decide⟩

/-- C1 (amended): at any position with a current room set, a line containing
the am/pm en-dash token (and neither advisors nor graders marker) is taken
as the time label; the lookahead consumes subsequent lines until the first
one that is non-empty and not exactly the noise literal, that line's portion
before `" Link"` becomes the presenter, the pair is appended to the current
room's schedule, and the outer scan resumes only after the consumed lines;
when every remaining line is empty or noise, the presenter is `""`. -/
theorem C1_time_lookahead (line found cr : String) (pre rest' : List String) (rooms : Rooms)
    (hadv : containsSub line advMark = false)
    (hgrd : containsSub line grdMark = false)
    (htime : containsSub line "am – " = true ∨ containsSub line "pm – " = true)
    (hpre : ∀ l ∈ pre, l = "" ∨ l = noiseLine)
    (hfound1 : found ≠ "") (hfound2 : found ≠ noiseLine) :
    parseLoop (line :: (pre ++ found :: rest')) (some cr) rooms =
      parseLoop rest' (some cr) (appendSlot rooms cr line (splitHead found " Link")) ∧
    parseLoop (line :: pre) (some cr) rooms = appendSlot rooms cr line "" := by
  have hhdr : line ∉ roomHeaders := by
    intro hmem
    rcases roomHeaders_no_time line hmem with ⟨ha, hp⟩
    rcases htime with ht | ht
    · rw [ha] at ht; exact Bool.false_ne_true ht
    · rw [hp] at ht; exact Bool.false_ne_true ht
  have horb : (containsSub line "am – " || containsSub line "pm – ") = true := by
    rcases htime with ht | ht <;> simp [ht]
  constructor
  · rw [parseLoop_cons_time line cr _ rooms hhdr hadv hgrd horb,
        findPresenterLine_append pre found rest' hpre hfound1 hfound2]
    rfl
  · rw [parseLoop_cons_time line cr pre rooms hhdr hadv hgrd horb,
        findPresenterLine_all_skip pre hpre]
    exact parseLoop_nil _ _

/-- C1 witness: the amended lookahead on a concrete input, in both the
found-presenter and the end-of-input scenario. -/
theorem C1_witness :
    parseLoop ["9:00 am – 9:15 am", "Link downloads document",
               "Alice Lee Link downloads document", "tail"]
        (some "101") [("101", ⟨"", "", []⟩)] =
      parseLoop ["tail"] (some "101")
        (appendSlot [("101", ⟨"", "", []⟩)] "101" "9:00 am – 9:15 am"
          (splitHead "Alice Lee Link downloads document" " Link")) ∧
    parseLoop ["9:00 am – 9:15 am", "Link downloads document"]
        (some "101") [("101", ⟨"", "", []⟩)] =
      appendSlot [("101", ⟨"", "", []⟩)] "101" "9:00 am – 9:15 am" "" :=
  C1_time_lookahead "9:00 am – 9:15 am" "Alice Lee Link downloads document" "101"
    ["Link downloads document"] ["tail"] [("101", ⟨"", "", []⟩)]
    (by decide) (by decide) (Or.inl (by decide)) (by decide) (by decide) (by decide)

/-- C2: the five-line example input parses to exactly the stated mapping. -/
theorem C2_example_end_to_end :
    parse ["101 - Sherrerd Hall",
           "ORFE Advisors: A. Smith PhD Candidate Graders: B. Jones",
           "9:00 am – 9:15 am",
           "Alice Lee Link downloads document",
           "Link downloads document"] =
      [("101", ⟨"ORFE Advisors: A. Smith ", "PhD Candidate Graders: B. Jones",
                [("9:00 am – 9:15 am", "Alice Lee")]⟩)] :=
  parse_eval _ _ (by decide)

/-- C3, counterexample to the claim as stated: on a line where the graders
marker occurs twice, the code sets the graders field to the marker plus the
text between its first and second occurrence, while the claim's words
(marker followed by the text after it) would keep everything after the
first occurrence. -/
theorem C3_counterexample :
    parse ["101 - Sherrerd Hall",
           "ORFE Advisors: X PhD Candidate Graders: A PhD Candidate Graders: B"] =
      [("101", ⟨"ORFE Advisors: X ", "PhD Candidate Graders: A ", []⟩)] ∧
    dropThroughSub "ORFE Advisors: X PhD Candidate Graders: A PhD Candidate Graders: B"
        grdMark = " A PhD Candidate Graders: B" ∧
    ("PhD Candidate Graders: A " : String) ≠ grdMark ++ " A PhD Candidate Graders: B" :=
  ⟨parse_eval _ _ (by decide), by decide, by decide⟩

/-- C3 (amended): a line seen with a current room set that contains both
markers sets the advisors field to the text before the first occurrence of
the graders marker and the graders field to the marker followed by the text
strictly between its first occurrence and the next one (the rest of the
line when the marker occurs only once); previous values are overwritten. -/
theorem C3_advisors_graders (line cr : String) (rest : List String) (rooms : Rooms)
    (hadv : containsSub line advMark = true)
    (hgrd : containsSub line grdMark = true) :
    parseLoop (line :: rest) (some cr) rooms =
      parseLoop rest (some cr) (dictUpdate rooms cr (fun r =>
        { r with advisors := splitHead line grdMark,
                 graders := grdMark ++ splitSecond line grdMark })) ∧
    (∀ r0 : RoomRecord, lookupRoom rooms cr = some r0 →
      lookupRoom (dictUpdate rooms cr (fun r =>
        { r with advisors := splitHead line grdMark,
                 graders := grdMark ++ splitSecond line grdMark })) cr =
        some ⟨splitHead line grdMark, grdMark ++ splitSecond line grdMark, r0.schedule⟩) := by
  have hhdr : line ∉ roomHeaders := by
    intro hmem
    rw [(roomHeaders_no_marks line hmem).1] at hadv
    exact Bool.false_ne_true hadv
  refine ⟨parseLoop_cons_both line cr rest rooms hhdr hadv hgrd, ?_⟩
  intro r0 h0
  rw [lookupRoom_dictUpdate_self, h0]
  rfl

/-- C3 witness: the amended combined-line rule on a concrete state, showing
the previous advisors and graders values being overwritten. -/
theorem C3_witness :
    parseLoop ["ORFE Advisors: X PhD Candidate Graders: Y"] (some "101")
        [("101", ⟨"a0", "g0", [("t", "p")]⟩)] =
      parseLoop [] (some "101")
        (dictUpdate [("101", ⟨"a0", "g0", [("t", "p")]⟩)] "101" (fun r =>
          { r with advisors := splitHead "ORFE Advisors: X PhD Candidate Graders: Y" grdMark,
                   graders := grdMark ++
                     splitSecond "ORFE Advisors: X PhD Candidate Graders: Y" grdMark })) ∧
    lookupRoom (dictUpdate [("101", ⟨"a0", "g0", [("t", "p")]⟩)] "101" (fun r =>
          { r with advisors := splitHead "ORFE Advisors: X PhD Candidate Graders: Y" grdMark,
                   graders := grdMark ++
                     splitSecond "ORFE Advisors: X PhD Candidate Graders: Y" grdMark })) "101" =
      some ⟨splitHead "ORFE Advisors: X PhD Candidate Graders: Y" grdMark,
            grdMark ++ splitSecond "ORFE Advisors: X PhD Candidate Graders: Y" grdMark,
            [("t", "p")]⟩ :=
  ⟨(C3_advisors_graders "ORFE Advisors: X PhD Candidate Graders: Y" "101" []
      [("101", ⟨"a0", "g0", [("t", "p")]⟩)] (by decide) (by decide)).1,
   (C3_advisors_graders "ORFE Advisors: X PhD Candidate Graders: Y" "101" []
      [("101", ⟨"a0", "g0", [("t", "p")]⟩)] (by decide) (by decide)).2
     ⟨"a0", "g0", [("t", "p")]⟩ (by decide)⟩

/-- C4: a recognized room-header line, in any state, sets the current room
to its code and replaces that room's entry with a fresh empty record, so
that anything accumulated for the code earlier in the scan is discarded. -/
theorem C4_header_resets (line : String) (rest : List String)
    (current : Option String) (rooms : Rooms) (h : line ∈ roomHeaders) :
    parseLoop (line :: rest) current rooms =
      parseLoop rest (some (splitHead line " - "))
        (dictInsert rooms (splitHead line " - ") ⟨"", "", []⟩) ∧
    lookupRoom (dictInsert rooms (splitHead line " - ") ⟨"", "", []⟩)
        (splitHead line " - ") = some ⟨"", "", []⟩ :=
  ⟨parseLoop_cons_header line rest current rooms h,
   lookupRoom_dictInsert_self rooms (splitHead line " - ") ⟨"", "", []⟩⟩

/-- C4 witness: a repeated header for room 101 resets a record that already
holds advisors, graders and a schedule entry. -/
theorem C4_witness :
    parseLoop ["101 - Sherrerd Hall"] none [("101", ⟨"a", "g", [("t", "p")]⟩)] =
      parseLoop [] (some (splitHead "101 - Sherrerd Hall" " - "))
        (dictInsert [("101", ⟨"a", "g", [("t", "p")]⟩)]
          (splitHead "101 - Sherrerd Hall" " - ") ⟨"", "", []⟩) ∧
    lookupRoom (dictInsert [("101", ⟨"a", "g", [("t", "p")]⟩)]
        (splitHead "101 - Sherrerd Hall" " - ") ⟨"", "", []⟩)
      (splitHead "101 - Sherrerd Hall" " - ") = some ⟨"", "", []⟩ :=
  C4_header_resets "101 - Sherrerd Hall" [] none
    [("101", ⟨"a", "g", [("t", "p")]⟩)] (by decide)

/-- C5: every key of the parsed mapping lies in the closed seven-element
code set; an input with no recognized header line, the empty input
included, parses to the empty mapping. -/
theorem C5_keys_closed (lines : List String) :
    (∀ k ∈ roomKeys (parse lines), k ∈ roomCodes) ∧
    ((∀ l ∈ lines, l ∉ roomHeaders) → parse lines = []) ∧
    parse ([] : List String) = [] := by
  refine ⟨?_, ?_, parseLoop_nil none []⟩
  · intro k hk
    have hrun := parseLoopFuel_adequate lines.length lines none [] (Nat.le_refl _)
    rcases parseLoopFuel_keys lines.length lines none [] (parse lines) hrun k hk with hc | hm
    · exact hc
    · simp [roomKeys] at hm
  · intro h
    exact parseLoop_no_header lines h []

/-- C5 witness: a concrete header-free input parses to the empty mapping
and vacuously has all keys in the code set. -/
theorem C5_witness :
    (∀ k ∈ roomKeys (parse ["hello", "9:00 am – 9:15 am"]), k ∈ roomCodes) ∧
    parse ["hello", "9:00 am – 9:15 am"] = [] :=
  ⟨(C5_keys_closed ["hello", "9:00 am – 9:15 am"]).1,
   (C5_keys_closed ["hello", "9:00 am – 9:15 am"]).2.1 (by decide)⟩

theorem time_line_not_header (line : String)
    (htime : containsSub line "am – " = true ∨ containsSub line "pm – " = true) :
    line ∉ roomHeaders := by
  intro hmem
  rcases roomHeaders_no_time line hmem with ⟨ha, hp⟩
  rcases htime with ht | ht
  · rw [ha] at ht; exact Bool.false_ne_true ht
  · rw [hp] at ht; exact Bool.false_ne_true ht

/-- C6: the parser is a pure function, so parsing the same line sequence
twice yields the same mapping (insertion order included), the same
insertion-ordered JSON serialization, and the same image under any digest
function (SHA-256 in the source) of the key-sorted JSON serialization. -/
theorem C6_deterministic (lines : List String) :
    parse lines = parse lines ∧
    roomsJson (parse lines) = roomsJson (parse lines) ∧
    ∀ digest : String → String,
      digest (roomsJsonSorted (parse lines)) = digest (roomsJsonSorted (parse lines)) :=
  ⟨rfl, rfl, fun _ => rfl⟩

/-- C7: a time-range line reached while no room header has been seen is
silently ignored — it is not itself a header, and the scan continues on the
remaining lines with state untouched, so no schedule entry is created and
no error is possible (the embedded parser is a total function). -/
theorem C7_unset_room_ignored (line : String) (rest : List String) (rooms : Rooms)
    (htime : containsSub line "am – " = true ∨ containsSub line "pm – " = true) :
    line ∉ roomHeaders ∧
    parseLoop (line :: rest) none rooms = parseLoop rest none rooms :=
  ⟨time_line_not_header line htime,
   parseLoop_cons_none line rest rooms (time_line_not_header line htime)⟩

/-- C7 witness: a concrete time-range line with no current room is skipped. -/
theorem C7_witness :
    parseLoop ["9:00 am – 9:15 am"] none [] = parseLoop [] none [] :=
  (C7_unset_room_ignored "9:00 am – 9:15 am" [] [] (Or.inl (by decide))).2

/-- C8, counterexample to the claim as stated: on `"9:00 am –9:15 am"` the
first separator found is the bare en-dash, the substring before it is
`"9:00 am "` (trailing space), yet `_shorten_time` returns the stripped
`"9:00 am"`, not that substring. -/
theorem C8_counterexample :
    containsSub "9:00 am –9:15 am" " – " = false ∧
    containsSub "9:00 am –9:15 am" " - " = false ∧
    containsSub "9:00 am –9:15 am" "–" = true ∧
    splitHead "9:00 am –9:15 am" "–" = "9:00 am " ∧
    shorten_time "9:00 am –9:15 am" ≠ "9:00 am " := by
  refine ⟨by decide, by decide, by decide, by decide, by decide⟩

/-- C8 (amended): `_shorten_time` tries the four separators in the fixed
order and returns the substring before the first separator found with
surrounding whitespace stripped; a string containing no separator is
returned stripped, hence unchanged when already trimmed; the two concrete
examples of the claim hold. -/
theorem C8_shorten_time (t : String) :
    shorten_time t =
      (if containsSub t " – " then trimStr (splitHead t " – ")
       else if containsSub t " - " then trimStr (splitHead t " - ")
       else if containsSub t "–" then trimStr (splitHead t "–")
       else if containsSub t "-" then trimStr (splitHead t "-")
       else trimStr t) ∧
    shorten_time "9:00 am – 9:15 am" = "9:00 am" ∧
    shorten_time "Lunch in Atrium" = "Lunch in Atrium" :=
  ⟨by simp [shorten_time, shortenTimeAux], by decide, by decide⟩

/-- C9: when the first usable line after a time-range line (after any run of
noise literals) is itself a recognized room-header line, the lookahead
consumes it: the full header text becomes the presenter (it contains no
`" Link"`), the scan resumes after it with the current room unchanged, and
no new key is created for it. -/
theorem C9_header_in_lookahead (tline h cr : String) (n : Nat)
    (rest' : List String) (rooms : Rooms)
    (hh : h ∈ roomHeaders)
    (hadv : containsSub tline advMark = false)
    (hgrd : containsSub tline grdMark = false)
    (htime : containsSub tline "am – " = true ∨ containsSub tline "pm – " = true) :
    splitHead h " Link" = h ∧
    parseLoop (tline :: (List.replicate n noiseLine ++ h :: rest')) (some cr) rooms =
      parseLoop rest' (some cr) (appendSlot rooms cr tline h) ∧
    roomKeys (appendSlot rooms cr tline h) = roomKeys rooms := by
  rcases roomHeaders_presenter_id h hh with ⟨hid, hne, hnn⟩
  have hhdr : tline ∉ roomHeaders := time_line_not_header tline htime
  have horb : (containsSub tline "am – " || containsSub tline "pm – ") = true := by
    rcases htime with ht | ht <;> simp [ht]
  refine ⟨hid, ?_, roomKeys_appendSlot rooms cr tline h⟩
  have hpre : ∀ l ∈ List.replicate n noiseLine, l = "" ∨ l = noiseLine := by
    intro l hl
    right
    exact List.eq_of_mem_replicate hl
  rw [parseLoop_cons_time tline cr _ rooms hhdr hadv hgrd horb,
      findPresenterLine_append _ h rest' hpre hne hnn]
  show parseLoop rest' (some cr) (appendSlot rooms cr tline (splitHead h " Link")) = _
  rw [hid]

/-- C9 witness: a time line followed by one noise line and the header of
room 003 while room 101 is current; the header becomes the presenter and no
key 003 appears. -/
theorem C9_witness :
    splitHead "003 - Sherrerd Hall" " Link" = "003 - Sherrerd Hall" ∧
    parseLoop ["9:00 am – 9:15 am", "Link downloads document", "003 - Sherrerd Hall"]
        (some "101") [("101", ⟨"", "", []⟩)] =
      parseLoop [] (some "101")
        (appendSlot [("101", ⟨"", "", []⟩)] "101" "9:00 am – 9:15 am"
          "003 - Sherrerd Hall") ∧
    roomKeys (appendSlot [("101", ⟨"", "", []⟩)] "101" "9:00 am – 9:15 am"
        "003 - Sherrerd Hall") = roomKeys [("101", ⟨"", "", []⟩)] :=
  C9_header_in_lookahead "9:00 am – 9:15 am" "003 - Sherrerd Hall" "101" 1 []
    [("101", ⟨"", "", []⟩)] (by decide) (by decide) (by decide) (Or.inl (by decide))

/-- C10: the scan terminates after at most one visit per line — running the
fuelled loop with exactly one unit of fuel per input line never exhausts
the fuel and returns the parse result, and the inner lookahead only ever
advances the cursor (the remaining-lines suffix never grows). -/
theorem C10_terminates (lines : List String) :
    parseLoopFuel lines.length lines none [] = some (parse lines) ∧
    ∀ l : List String, (findPresenterLine l).2.length ≤ l.length :=
  ⟨parseLoopFuel_adequate lines.length lines none [] (Nat.le_refl _),
   findPresenterLine_length_le⟩

end SymposiumSchedule
